import Mathlib

/-!
# Verification of the SkipIfZeroCommon concurrency core

Shallow embedding of the two concurrency primitives of the library:
`sfz::BlockingQueue<T>` (src/include/sfz/util/BlockingQueue.hpp) and
`sfz::ScopedThread` (src/include/sfz/util/ScopedThread.hpp).

The headers declare the classes and document every member; the member
bodies live in `BlockingQueue.inl` and a `ScopedThread` translation unit
that are not part of the provided sources, so the operations below are
modelled from the specification (and from the headers' doc comments,
which agree with it).

All mutations of a queue instance are linearized by its internal lock, so
the queue is embedded as a pure state machine on the protected sequence,
and concurrent histories are embedded as linearized traces of operations.
A blocking `pop` is not linearized until it completes, so in the trace
semantics a `pop` that would find the queue empty marks the trace as
having no completed linearization (`none`).
-/

namespace sfz

/-- Modelled from the spec: the state of one `BlockingQueue<T>` is the
lock-protected FIFO sequence `std::queue<T> queue` (head = next to pop,
tail = last pushed).  The mutex and condition variable carry no data and
are not part of the linearized state. -/
structure BlockingQueue (T : Type) where
  queue : List T
deriving DecidableEq, Repr

namespace BlockingQueue

/-- Modelled from the spec: `BlockingQueue()` constructs an empty queue
(missing body: BlockingQueue.inl). -/
def new (T : Type) : BlockingQueue T := ⟨[]⟩

/-- Modelled from the spec: `push(element)` acquires the lock, appends
`element` to the tail of the sequence, releases the lock and signals the
condition variable (missing body: BlockingQueue.inl).  It is a total
function: no failure mode, always succeeds. -/
def push (q : BlockingQueue T) (element : T) : BlockingQueue T :=
  ⟨q.queue ++ [element]⟩

/-- Modelled from the spec: `pop()` waits until the sequence is non-empty,
then removes and returns the head element (missing body:
BlockingQueue.inl).  `none` embeds the case in which the call blocks and
never returns (queue empty, no further push in the history). -/
def pop (q : BlockingQueue T) : Option (T × BlockingQueue T) :=
  match q.queue with
  | [] => none
  | x :: rest => some (x, ⟨rest⟩)

/-- Modelled from the spec: `tryPop()` acquires the lock once; on an empty
queue it returns an empty `unique_ptr` (here `none`) and leaves the state
alone, otherwise it removes and returns the head element (missing body:
BlockingQueue.inl). -/
def tryPop (q : BlockingQueue T) : Option T × BlockingQueue T :=
  match q.queue with
  | [] => (none, q)
  | x :: rest => (some x, ⟨rest⟩)

/-- Modelled from the spec: `empty()` acquires the lock momentarily to
read whether the sequence is empty; it mutates nothing (missing body:
BlockingQueue.inl).  Embedded state-passing so the frame property is
expressible. -/
def empty (q : BlockingQueue T) : Bool × BlockingQueue T :=
  (q.queue.isEmpty, q)

end BlockingQueue

/-- One linearized operation of a queue history: a completed `push` of a
value, or a completed (blocking) `pop`. -/
inductive Op (T : Type) where
  | push (v : T)
  | pop
deriving DecidableEq, Repr

/-- The values pushed by a history, in the lock's total order. -/
def pushedOf : List (Op T) → List T
  | [] => []
  | Op.push v :: rest => v :: pushedOf rest
  | Op.pop :: rest => pushedOf rest

/-- Runs a linearized history against a queue state.  Returns the final
state and the list of values returned by the successive `pop`s, or `none`
when some `pop` finds the queue empty with no later push to complete it
(that `pop` blocks forever, so the history has no completed
linearization). -/
def runTrace : List (Op T) → BlockingQueue T → Option (BlockingQueue T × List T)
  | [], q => some (q, [])
  | Op.push v :: rest, q => runTrace rest (q.push v)
  | Op.pop :: rest, q =>
    match q.pop with
    | none => none
    | some (v, q1) =>
      match runTrace rest q1 with
      | none => none
      | some (q2, out) => some (q2, v :: out)

/-- Modelled from the spec: a `std::thread` handle, abstracted to the one
observable property the `ScopedThread` constructor inspects — whether the
handle is joinable. -/
structure StdThread where
  joinable : Bool
deriving DecidableEq, Repr

/-- Modelled from the spec: the recoverable error taxonomy of the library;
the `ScopedThread` constructor throws `std::invalid_argument`. -/
inductive SfzError where
  | invalidArgument
deriving DecidableEq, Repr

/-- Modelled from the spec: a `ScopedThread` exclusively owns exactly one
joinable thread handle for its whole lifetime. -/
structure ScopedThread where
  thread : StdThread
deriving DecidableEq, Repr

/-- Modelled from the spec: the constructor `ScopedThread(std::thread t)`
(missing body: only declared in ScopedThread.hpp).  It throws
`std::invalid_argument` when `t` is not joinable — embedded as
`Except.error` reported synchronously to the caller — and otherwise moves
`t` into the constructed object. -/
def ScopedThread.create (t : StdThread) : Except SfzError ScopedThread :=
  if t.joinable then Except.ok ⟨t⟩ else Except.error SfzError.invalidArgument

/-- Modelled from the spec: the phase of the thread owned by a
`ScopedThread` — still running its work function, or finished. -/
inductive ThreadPhase where
  | running
  | finished
deriving DecidableEq, Repr

/-- Modelled from the spec: joint state of the owned worker thread and the
destroying thread.  `flag` is an effect performed by the last statement of
the work function; `destructorReturned` records whether
`~ScopedThread()` (which joins the worker) has returned. -/
structure JoinState where
  phase : ThreadPhase
  flag : Bool
  destructorReturned : Bool
deriving DecidableEq, Repr

/-- Modelled from the spec: the transitions of the two threads.  The work
function sets the flag as its final effect and returns
(`finishWork`); the destructor's `join` can only complete once the worker
has finished, and completes at most once (`joinReturn`). -/
inductive JoinStep : JoinState → JoinState → Prop where
  | finishWork (f d : Bool) :
      JoinStep ⟨ThreadPhase.running, f, d⟩ ⟨ThreadPhase.finished, true, d⟩
  | joinReturn (f : Bool) :
      JoinStep ⟨ThreadPhase.finished, f, false⟩ ⟨ThreadPhase.finished, f, true⟩

/-- Initial state: worker running, flag unset, destructor not returned. -/
def JoinState.init : JoinState := ⟨ThreadPhase.running, false, false⟩

/-- States reachable in a run of the destructor racing the worker. -/
inductive JoinReachable : JoinState → Prop where
  | init : JoinReachable JoinState.init
  | step {s s' : JoinState} : JoinReachable s → JoinStep s s' → JoinReachable s'

/-- Conservation of values along a completed history: the initial contents
followed by everything pushed equals everything popped followed by the
final contents, as lists (order included). -/
theorem runTrace_conservation (ops : List (Op T)) :
    ∀ (q q' : BlockingQueue T) (out : List T),
      runTrace ops q = some (q', out) →
      out ++ q'.queue = q.queue ++ pushedOf ops := by
  induction ops with
  | nil =>
    intro q q' out h
    simp [runTrace] at h
    simp [h.1, h.2, pushedOf]
  | cons op rest ih =>
    intro q q' out h
    cases op with
    | push v =>
      have h' := ih (q.push v) q' out (by simpa [runTrace] using h)
      simp [pushedOf, BlockingQueue.push] at h' ⊢
      simpa using h'
    | pop =>
      cases hq : q.queue with
      | nil => simp [runTrace, BlockingQueue.pop, hq] at h
      | cons x xs =>
        simp [runTrace, BlockingQueue.pop, hq] at h
        cases hrun : runTrace rest (⟨xs⟩ : BlockingQueue T) with
        | none => rw [hrun] at h; simp at h
        | some p =>
          rw [hrun] at h
          simp at h
          have h' := ih ⟨xs⟩ p.1 p.2 (by rw [hrun])
          rw [← h.2, ← h.1]
          simp [pushedOf]
          simpa using h'

/-- Modelled from the spec: if a completed history contains a `pop` but no
`push` ever occurs in it, and the queue is empty, the `pop` blocks forever:
the history has no completed linearization. -/
theorem runTrace_no_push_blocks (ops : List (Op T)) :
    pushedOf ops = [] → Op.pop ∈ ops →
    ∀ q : BlockingQueue T, q.queue = [] → runTrace ops q = none := by
  induction ops with
  | nil =>
    intro _ hmem
    simp at hmem
  | cons op rest ih =>
    intro hp hmem q hq
    cases op with
    | push v => simp [pushedOf] at hp
    | pop => simp [runTrace, BlockingQueue.pop, hq]

/-- Inductive invariant of the join protocol: once finished the flag is
set, and the destructor returns only after the worker finished. -/
theorem joinReachable_invariant (s : JoinState) (hr : JoinReachable s) :
    (s.phase = ThreadPhase.finished → s.flag = true) ∧
    (s.destructorReturned = true → s.phase = ThreadPhase.finished) := by
  induction hr with
  | init => simp [JoinState.init]
  | step hr' hstep ih =>
    cases hstep with
    | finishWork f d => exact ⟨fun _ => rfl, fun _ => rfl⟩
    | joinReturn f => exact ⟨fun _ => ih.1 rfl, fun _ => rfl⟩

/-- C1: for every linearized history run from an empty `BlockingQueue`,
FIFO order is preserved exactly — the popped values are an initial segment
of the pushed values, so the nth successful pop returns the nth
successfully pushed value, and any two values pushed in order are popped
in that same relative order. -/
theorem blockingQueue_fifo_order (T : Type) (ops : List (Op T))
    (q' : BlockingQueue T) (out : List T)
    (h : runTrace ops (BlockingQueue.new T) = some (q', out)) :
    out = (pushedOf ops).take out.length ∧
    ∀ i, i < out.length → out[i]? = (pushedOf ops)[i]? := by
  have hc := runTrace_conservation ops (BlockingQueue.new T) q' out h
  simp [BlockingQueue.new] at hc
  constructor
  · rw [← hc]
    simp
  · intro i hi
    rw [← hc]
    exact (List.getElem?_append_left hi).symm

/-- C1 witness: the history push 1, push 2, pop from the empty queue. -/
theorem blockingQueue_fifo_order_witness :
    ([1] : List ℕ) = (pushedOf [Op.push 1, Op.push 2, Op.pop]).take 1 ∧
    ([1] : List ℕ)[0]? = (pushedOf [Op.push 1, Op.push 2, Op.pop])[0]? := by
  have h := blockingQueue_fifo_order ℕ [Op.push 1, Op.push 2, Op.pop] ⟨[2]⟩ [1] rfl
  exact ⟨h.1, h.2 0 (by decide)⟩

/-- C2: `pop` never returns without holding a genuinely dequeued value —
whenever it returns, the queue was non-empty and the returned value is the
head it removed — and in a history that contains a `pop` but never a
`push`, the `pop` never returns (no completed linearization, no timeout or
cancellation). -/
theorem blockingQueue_pop_contract (T : Type) :
    (∀ (q q' : BlockingQueue T) (v : T),
        q.pop = some (v, q') → q.queue = v :: q'.queue) ∧
    (∀ ops : List (Op T), pushedOf ops = [] → Op.pop ∈ ops →
        runTrace ops (BlockingQueue.new T) = none) := by
  constructor
  · intro q q' v h
    cases hq : q.queue with
    | nil => simp [BlockingQueue.pop, hq] at h
    | cons x xs =>
      simp [BlockingQueue.pop, hq] at h
      rw [← h.1, ← h.2]
  · intro ops hp hmem
    exact runTrace_no_push_blocks ops hp hmem (BlockingQueue.new T) rfl

/-- C2 witness: popping from a one-element queue returns its head, and a
pop-only history from the empty queue never completes. -/
theorem blockingQueue_pop_contract_witness :
    (⟨[5]⟩ : BlockingQueue ℕ).queue = 5 :: (⟨[]⟩ : BlockingQueue ℕ).queue ∧
    runTrace [Op.pop] (BlockingQueue.new ℕ) = none := by
  refine ⟨(blockingQueue_pop_contract ℕ).1 ⟨[5]⟩ ⟨[]⟩ 5 rfl, ?_⟩
  exact (blockingQueue_pop_contract ℕ).2 [Op.pop] rfl (by decide)

/-- C3: whenever the `ScopedThread` destructor has returned, the owned
worker thread has finished its work function, so an effect performed at
the end of that work function (the flag) is observed as set — in every
reachable state, hence in every run. -/
theorem scopedThread_destructor_joins (s : JoinState)
    (hr : JoinReachable s) (hd : s.destructorReturned = true) :
    s.phase = ThreadPhase.finished ∧ s.flag = true := by
  have hi := joinReachable_invariant s hr
  have hfin := hi.2 hd
  exact ⟨hfin, hi.1 hfin⟩

/-- C3 witness: the run in which the worker finishes and the destructor's
join then returns reaches a state with the flag observed set. -/
theorem scopedThread_destructor_joins_witness :
    (⟨ThreadPhase.finished, true, true⟩ : JoinState).phase = ThreadPhase.finished ∧
    (⟨ThreadPhase.finished, true, true⟩ : JoinState).flag = true := by
  refine scopedThread_destructor_joins ⟨ThreadPhase.finished, true, true⟩ ?_ rfl
  exact JoinReachable.step
    (JoinReachable.step JoinReachable.init (JoinStep.finishWork false false))
    (JoinStep.joinReturn true)

/-- C4: constructing a `ScopedThread` from a non-joinable handle fails
synchronously with `InvalidArgument` (an ordinary, recoverable return
value, and no `ScopedThread` is constructed, so no ownership is taken);
on success the constructed object owns exactly the supplied handle, which
was joinable. -/
theorem scopedThread_create_contract (t : StdThread) :
    (t.joinable = false →
        ScopedThread.create t = Except.error SfzError.invalidArgument) ∧
    (∀ s : ScopedThread, ScopedThread.create t = Except.ok s →
        s.thread = t ∧ t.joinable = true) := by
  constructor
  · intro h
    simp [ScopedThread.create, h]
  · intro s h
    cases hj : t.joinable with
    | false => simp [ScopedThread.create, hj] at h
    | true =>
      simp [ScopedThread.create, hj] at h
      exact ⟨by rw [← h], rfl⟩

/-- C4 witness: a non-joinable handle is rejected with `InvalidArgument`,
a joinable one is moved into the constructed owner. -/
theorem scopedThread_create_contract_witness :
    ScopedThread.create ⟨false⟩ = Except.error SfzError.invalidArgument ∧
    (⟨⟨true⟩⟩ : ScopedThread).thread = ⟨true⟩ := by
  refine ⟨(scopedThread_create_contract ⟨false⟩).1 rfl, ?_⟩
  exact ((scopedThread_create_contract ⟨true⟩).2 ⟨⟨true⟩⟩ rfl).1

/-- C5: no value is lost or duplicated — along any completed history from
the empty queue, the multiset of popped values plus the multiset of values
still queued equals the multiset of pushed values; in particular when the
queue ends empty (n pushes, n pops) the popped multiset equals the pushed
multiset. -/
theorem blockingQueue_no_loss_no_duplication (T : Type) (ops : List (Op T))
    (q' : BlockingQueue T) (out : List T)
    (h : runTrace ops (BlockingQueue.new T) = some (q', out)) :
    (↑out + ↑q'.queue : Multiset T) = ↑(pushedOf ops) ∧
    (q'.queue = [] → (↑out : Multiset T) = ↑(pushedOf ops)) := by
  have hc := runTrace_conservation ops (BlockingQueue.new T) q' out h
  simp [BlockingQueue.new] at hc
  constructor
  · rw [← hc]
    simp
  · intro hq
    rw [← hc, hq]
    simp

/-- C5 witness: two pushes and one pop from the empty queue. -/
theorem blockingQueue_no_loss_no_duplication_witness :
    (↑([1] : List ℕ) + ↑([2] : List ℕ) : Multiset ℕ) =
      ↑(pushedOf [Op.push 1, Op.push 2, Op.pop]) :=
  (blockingQueue_no_loss_no_duplication ℕ [Op.push 1, Op.push 2, Op.pop]
    ⟨[2]⟩ [1] rfl).1

/-- C6: for every queue state and value, `push` appends the value at the
tail of the sequence, leaving all previously queued items in place and in
order; it is a total function on queue states — no failure mode, never
blocked by queue state. -/
theorem blockingQueue_push_appends (T : Type) (q : BlockingQueue T) (x : T) :
    (q.push x).queue = q.queue ++ [x] := rfl

/-- C7: after `push x` the queue is non-empty so `tryPop` returns a value;
when the queue was empty before the push, that value is `x` and `tryPop`
removes it, leaving the queue empty again. -/
theorem blockingQueue_push_then_tryPop (T : Type) (q : BlockingQueue T) (x : T) :
    (∃ v, ((q.push x).tryPop).1 = some v) ∧
    (q.queue = [] → (q.push x).tryPop = (some x, BlockingQueue.new T)) := by
  constructor
  · cases hq : q.queue with
    | nil => exact ⟨x, by simp [BlockingQueue.push, BlockingQueue.tryPop, hq]⟩
    | cons y ys => exact ⟨y, by simp [BlockingQueue.push, BlockingQueue.tryPop, hq]⟩
  · intro hq
    simp [BlockingQueue.push, BlockingQueue.tryPop, hq, BlockingQueue.new]

/-- C7 witness: push 7 onto the fresh queue, then tryPop returns 7 and
empties the queue. -/
theorem blockingQueue_push_then_tryPop_witness :
    ((BlockingQueue.new ℕ).push 7).tryPop = (some 7, BlockingQueue.new ℕ) :=
  (blockingQueue_push_then_tryPop ℕ (BlockingQueue.new ℕ) 7).2 rfl

/-- C8: a `BlockingQueue` is created empty, and `tryPop` on the freshly
constructed queue returns no value (the empty `unique_ptr`) immediately,
leaving the queue as constructed. -/
theorem blockingQueue_new_tryPop_none (T : Type) :
    (BlockingQueue.new T).queue = [] ∧
    (BlockingQueue.new T).tryPop = (none, BlockingQueue.new T) :=
  ⟨rfl, rfl⟩

/-- C9: `tryPop` on an empty queue leaves the state entirely unchanged and
returns no value; on a non-empty queue it removes exactly the head and
leaves the rest of the sequence unchanged. -/
theorem blockingQueue_tryPop_state (T : Type) (q : BlockingQueue T) :
    (q.queue = [] → q.tryPop = (none, q)) ∧
    (∀ (x : T) (rest : List T), q.queue = x :: rest →
        q.tryPop = (some x, ⟨rest⟩)) := by
  constructor
  · intro hq
    simp [BlockingQueue.tryPop, hq]
  · intro x rest hq
    simp [BlockingQueue.tryPop, hq]

/-- C9 witness: tryPop on a concrete empty queue and on a concrete
two-element queue. -/
theorem blockingQueue_tryPop_state_witness :
    (⟨[]⟩ : BlockingQueue ℕ).tryPop = (none, ⟨[]⟩) ∧
    (⟨[3, 4]⟩ : BlockingQueue ℕ).tryPop = (some 3, ⟨[4]⟩) :=
  ⟨(blockingQueue_tryPop_state ℕ ⟨[]⟩).1 rfl,
   (blockingQueue_tryPop_state ℕ ⟨[3, 4]⟩).2 3 [4] rfl⟩

/-- C10: `empty` returns `true` exactly when the item sequence is empty
and never modifies the sequence — the state after the call is identical to
the state before. -/
theorem blockingQueue_empty_advisory (T : Type) (q : BlockingQueue T) :
    ((q.empty).1 = true ↔ q.queue = []) ∧ (q.empty).2 = q := by
  constructor
  · simp [BlockingQueue.empty]
  · rfl

/-- C10 witness: `empty` on a fresh queue reports true, on a non-empty
queue it reports false and leaves the contents untouched. -/
theorem blockingQueue_empty_advisory_witness :
    ((⟨[]⟩ : BlockingQueue ℕ).empty).1 = true ∧
    ((⟨[2]⟩ : BlockingQueue ℕ).empty).2 = ⟨[2]⟩ :=
  ⟨(blockingQueue_empty_advisory ℕ ⟨[]⟩).1.mpr rfl,
   (blockingQueue_empty_advisory ℕ ⟨[2]⟩).2⟩

end sfz
